import Mathlib

/-!
# Verification of the `markdown-fmt` streaming Markdown formatter

Shallow embedding of the Rust sources of the `ytmimi--markdown-fmt` fork
(`src/` of this repository) in Lean 4, together with theorems settling the
frozen claims C1..C10 about the natural-language specification.

Modelling conventions, used throughout:

* Rust `&str` / `String` values are modelled as their character sequences,
  `Str := List Char`.  All byte ranges produced by the upstream parser are
  treated as character ranges; every concrete input used in a theorem is
  ASCII, where the two notions coincide.
* Rust `usize` is `Nat`; the arithmetic in the embedded code never
  overflows on the inputs considered.
* Fallible Rust code (`Result`, `panic!`-free APIs) is embedded with
  `Except` / `Option`.  `debug_assert!` calls are compiled out in release
  builds and are embedded as no-ops.
* Functions keep their Rust names (snake_case) where Lean allows it.
-/

set_option autoImplicit false

namespace MarkdownFmt

/-- Characters of a Rust string slice. -/
abbrev Str := List Char

/-- A half-open source range, `std::ops::Range<usize>`. -/
structure SrcRange where
  start : Nat
  stop : Nat
  deriving DecidableEq, Repr

/-! ## Rust string-slice primitives

Each definition mirrors the `str` method of the same name, on `Str`. -/

/-- `str::trim_start` (Unicode whitespace). -/
def trimStart (s : Str) : Str := s.dropWhile Char.isWhitespace

/-- `str::trim_end` (Unicode whitespace). -/
def trimEnd (s : Str) : Str := (s.reverse.dropWhile Char.isWhitespace).reverse

/-- `str::trim` (Unicode whitespace). -/
def trim (s : Str) : Str := trimEnd (trimStart s)

/-- `str::starts_with(c)` for a single char pattern. -/
def startsWithChar (s : Str) (c : Char) : Bool :=
  match s.head? with
  | some c2 => c2 == c
  | none => false

/-- `str::ends_with(c)` for a single char pattern. -/
def endsWithChar (s : Str) (c : Char) : Bool :=
  match s.getLast? with
  | some c2 => c2 == c
  | none => false

/-- `str::contains(c)` for a single char pattern. -/
def containsChar (s : Str) (c : Char) : Bool := s.contains c

/-- `str::trim_start_matches(c)` for a single char pattern. -/
def trimStartMatchesChar (s : Str) (c : Char) : Str := s.dropWhile (· == c)

/-- `str::trim_end_matches(c)` for a single char pattern. -/
def trimEndMatchesChar (s : Str) (c : Char) : Str :=
  (s.reverse.dropWhile (· == c)).reverse

/-- `str::trim_start_matches(p)` for a char-predicate pattern. -/
def trimStartMatchesPred (s : Str) (p : Char → Bool) : Str := s.dropWhile p

/-- `str::trim_end_matches(p)` for a char-predicate pattern. -/
def trimEndMatchesPred (s : Str) (p : Char → Bool) : Str :=
  (s.reverse.dropWhile p).reverse

/-- Fuel-driven worker for `trim_start_matches` with a string pattern. -/
def trimStartMatchesStrGo (pat : Str) : Nat → Str → Str
  | 0, s => s
  | Nat.succ n, s =>
    if !pat.isEmpty && pat.isPrefixOf s then
      trimStartMatchesStrGo pat n (s.drop pat.length)
    else s

/-- `str::trim_start_matches(pat)` for a string pattern: repeatedly strip the
prefix while it matches. -/
def trimStartMatchesStr (s pat : Str) : Str := trimStartMatchesStrGo pat s.length s

/-- `&s[a..b]`: the slice of `s` between positions `a` (inclusive) and `b`
(exclusive). -/
def strSlice (s : Str) (a b : Nat) : Str := (s.drop a).take (b - a)

/-- Number of `'\n'` characters in a snippet (`helpers.rs::count_newlines`,
also the `.chars().filter(..).count()` idiom used inline in the engine). -/
def count_newlines_in (snippet : Str) : Nat := (snippet.filter (· == '\n')).length

/-- Worker for `str::split(c)`: accumulates the current (reversed) chunk. -/
def splitCharGo (c : Char) (acc : Str) : Str → List Str
  | [] => [acc.reverse]
  | x :: rest =>
    if x == c then acc.reverse :: splitCharGo c [] rest
    else splitCharGo c (x :: acc) rest

/-- `str::split(c)` for a single char pattern. -/
def splitChar (s : Str) (c : Char) : List Str := splitCharGo c [] s

/-- Worker for `str::split_inclusive('\n')`. -/
def splitInclusiveNlGo (acc : Str) : Str → List Str
  | [] => if acc.isEmpty then [] else [acc.reverse]
  | x :: rest =>
    if x == '\n' then (x :: acc).reverse :: splitInclusiveNlGo [] rest
    else splitInclusiveNlGo (x :: acc) rest

/-- `str::split_inclusive('\n')`: split after every newline, keeping it. -/
def splitInclusiveNl (s : Str) : List Str := splitInclusiveNlGo [] s

/-- `str::lines`: like `split('\n')` but without a trailing empty line. -/
def rustLines (s : Str) : List Str :=
  if endsWithChar s '\n' then (splitChar s '\n').dropLast else splitChar s '\n'

/-- Digits of `n` in base 10, as written by `write!("{n}")`. -/
def natToStr (n : Nat) : Str := (Nat.repr n).toList

/-! ## `src/list.rs` — the list-marker model

Embedded from `src/src/list.rs`.  Note that this fork's `ListMarker::from_str`
deliberately normalizes every marker (source comment: "SH: I always use `1.`
and `-`."). -/

/-- `list.rs::OrderedListMarker`. -/
inductive OrderedListMarker
  | Period
  | Parenthesis
  deriving DecidableEq, Repr

/-- `list.rs::UnorderedListMarker`. -/
inductive UnorderedListMarker
  | Asterisk
  | Plus
  | Hyphen
  deriving DecidableEq, Repr

/-- `list.rs::ListMarker`. -/
inductive ListMarker
  | Ordered (zero_padding : Nat) (number : Nat) (marker : OrderedListMarker)
  | Unordered (marker : UnorderedListMarker)
  deriving DecidableEq, Repr

/-- `list.rs::ParseListMarkerError`.  The payloads of the `InvalidMarker` and
`ParseIntError` variants are irrelevant to the claims and dropped. -/
inductive ParseListMarkerError
  | NoMarkers
  | InvalidMarker
  | ParseIntError
  deriving DecidableEq, Repr

/-- `impl From<&OrderedListMarker> for char`. -/
def OrderedListMarker.toChar : OrderedListMarker → Char
  | .Period => '.'
  | .Parenthesis => ')'

/-- `impl From<&UnorderedListMarker> for char`. -/
def UnorderedListMarker.toChar : UnorderedListMarker → Char
  | .Asterisk => '*'
  | .Plus => '+'
  | .Hyphen => '-'

/-- `ListMarker::marker_char`. -/
def ListMarker.marker_char : ListMarker → Char
  | .Ordered _ _ m => m.toChar
  | .Unordered m => m.toChar

/-- `list.rs::ZERO_PADDING`: twenty `'0'` characters. -/
def ZERO_PADDING : Str := List.replicate 20 '0'

/-- `ListMarker::zero_padding`: `&ZERO_PADDING[..zero_padding]`. -/
def ListMarker.zero_padding_str : ListMarker → Str
  | .Ordered zp _ _ => ZERO_PADDING.take zp
  | .Unordered _ => []

/-- `ListMarker::indentation`: fixed to four spaces in this fork. -/
def ListMarker.indentation (_ : ListMarker) : Str := [' ', ' ', ' ', ' ']

/-- `impl FromStr for ListMarker` (`list.rs` lines 145-165).  After trimming,
an empty string is `NoMarkers`; a leading `*`/`+`/`-` yields
`Unordered(Hyphen)`; anything else yields `Ordered {0, 1, Period}`. -/
def ListMarker.from_str (s : Str) : Except ParseListMarkerError ListMarker :=
  let s := trim s
  if s.isEmpty then .error .NoMarkers
  else if s.head? == some '*' || s.head? == some '+' || s.head? == some '-' then
    .ok (.Unordered .Hyphen)
  else .ok (.Ordered 0 1 .Period)

/-- The list-marker text written by `start_tag`'s `Tag::Item` arm
(`formatter/formatting_states/format.rs` lines 359-375): zero padding, number
and marker char for ordered markers, the marker char for unordered ones, with
a trailing space unless the item is empty. -/
def item_marker_text (lm : ListMarker) (empty_list_item : Bool) : Str :=
  let mc := lm.marker_char
  match lm with
  | .Ordered _ number _ =>
    let zp := lm.zero_padding_str
    if empty_list_item then zp ++ natToStr number ++ [mc]
    else zp ++ natToStr number ++ [mc, ' ']
  | .Unordered _ =>
    if empty_list_item then [mc] else [mc, ' ']

/-! ## `src/config.rs` — formatting configuration -/

/-- `config.rs::Config`.  The generation of the engine embedded below
(`formatter/formatting_states*`) additionally reads `fixed_emphasis_marker`
and `fixed_strong_marker`; that generation's `config.rs` is absent from this
snapshot and the emphasis paths are not embedded, so those two fields are
omitted here. -/
structure Config where
  max_width : Option Nat := none
  fixed_zero_padding : Option Nat := none
  fixed_number : Option Nat := none
  fixed_ordered_list_marker : Option OrderedListMarker := none
  fixed_unordered_list_marker : Option UnorderedListMarker := none
  fixed_indentation : Option Str := none
  deriving DecidableEq, Repr

/-- `Config::sichanghe_opinion`. -/
def Config.sichanghe_opinion : Config where
  max_width := some 80
  fixed_zero_padding := some 0
  fixed_number := some 1
  fixed_ordered_list_marker := some .Period
  fixed_unordered_list_marker := some .Hyphen
  fixed_indentation := some [' ', ' ', ' ', ' ']

/-- `Config::list_marker` (`config.rs` lines 36-66): parse the marker from the
source text (the `?` operator is the error-propagating first match arm), then
apply the `fixed_*` overrides field by field. -/
def Config.list_marker (cfg : Config) (source : Str) :
    Except ParseListMarkerError ListMarker :=
  match ListMarker.from_str source with
  | .error e => .error e
  | .ok (.Ordered zero_padding number marker) =>
    let zero_padding := match cfg.fixed_zero_padding with
      | some fixed_zero_padding => fixed_zero_padding
      | none => zero_padding
    let number := match cfg.fixed_number with
      | some fixed_number => fixed_number
      | none => number
    let marker := match cfg.fixed_ordered_list_marker with
      | some fixed_marker => fixed_marker
      | none => marker
    .ok (.Ordered zero_padding number marker)
  | .ok (.Unordered m) =>
    match cfg.fixed_unordered_list_marker with
    | some fixed_marker => .ok (.Unordered fixed_marker)
    | none => .ok (.Unordered m)

/-! ## `src/links.rs` — link destination helpers -/

/-- Loop body of `links.rs::balanced_parens`: walks the characters carrying
the paren `stack` and the `was_last_escape` flag.  Pushing `'('` skips the
flag update via `continue`; since that branch requires the flag to be `false`,
the flag is `false` afterwards either way. -/
def balancedParensGo (stack : List Char) (was_last_escape : Bool) : Str → Bool
  | [] => stack.isEmpty
  | b :: rest =>
    if !was_last_escape && b == '(' then balancedParensGo ('(' :: stack) false rest
    else if !was_last_escape && b == ')' then
      match stack with
      | top :: stack2 =>
        if top != '(' then false else balancedParensGo stack2 (b == '\\') rest
      | [] => false
    else balancedParensGo stack (b == '\\') rest

/-- `links.rs::balanced_parens` (lines 38-61): escape-aware check that the
parentheses of a URL are balanced. -/
def balanced_parens (url : Str) : Bool := balancedParensGo [] false url

/-- `links.rs::format_link_url` (lines 24-35).  Note the Rust operator
precedence: `&&` binds tighter than `||`, so the wrap condition is
`(!starts_with('<') && !ends_with('>') && contains(' ')) || !balanced_parens`. -/
def format_link_url (url : Str) (wrap_empty_urls : Bool) : Str :=
  if wrap_empty_urls && url.isEmpty then ['<', '>']
  else if (!startsWithChar url '<' && !endsWithChar url '>' && containsChar url ' ')
      || !balanced_parens url then
    '<' :: url ++ ['>']
  else url

/-! ## `src/external_formatter.rs` and `src/external_formatter/default.rs`

The `textwrap` crate used by `Paragraph::into_buffer` is an external
dependency; its `fill` function is taken as a parameter wherever
`into_buffer` is evaluated, so every theorem holds for an arbitrary
wrapping function. -/

/-- `external_formatter.rs::FormattingContext`. -/
inductive FormattingContext
  | CodeBlock
  | DisplayMath
  | HtmlBlock
  | Paragraph
  deriving DecidableEq, Repr

/-- `external_formatter.rs::BufferType`. -/
inductive BufferType
  | CodeBlock (info : Option Str)
  | DisplayMath
  | HtmlBlock
  | Paragraph
  deriving DecidableEq, Repr

/-- `BufferType::to_formatting_context`. -/
def BufferType.to_formatting_context : BufferType → FormattingContext
  | .CodeBlock _ => .CodeBlock
  | .DisplayMath => .DisplayMath
  | .HtmlBlock => .HtmlBlock
  | .Paragraph => .Paragraph

/-- `default.rs::PreservingBuffer`: preserves everything as is. -/
structure PreservingBuffer where
  buffer : Str
  context : FormattingContext
  deriving DecidableEq, Repr

/-- `PreservingBuffer::new` (the capacity hint is irrelevant to contents). -/
def PreservingBuffer.new (buffer_type : BufferType) (_max_width : Option Nat)
    (_capacity : Nat) : PreservingBuffer :=
  { buffer := [], context := buffer_type.to_formatting_context }

/-- `impl Write for PreservingBuffer`. -/
def PreservingBuffer.write_str (b : PreservingBuffer) (s : Str) : PreservingBuffer :=
  { b with buffer := b.buffer ++ s }

/-- `default.rs::MARKDOWN_HARD_BREAK`: two spaces and a newline. -/
def MARKDOWN_HARD_BREAK : Str := [' ', ' ', '\n']

/-- The `is_hard_break` closure of `Paragraph::write_str`: two leading
spaces, then only spaces, then exactly one newline. -/
def is_hard_break (s : Str) : Bool :=
  match s with
  | ' ' :: ' ' :: rest => rest.dropWhile (· == ' ') == ['\n']
  | _ => false

/-- `default.rs::Paragraph`: the default paragraph formatter. -/
structure Paragraph where
  buffer : Str
  max_width : Option Nat
  deriving DecidableEq, Repr

/-- `Paragraph::new` (`ExternalFormatter::new`; capacity only pre-allocates). -/
def Paragraph.new (_buffer_type : BufferType) (max_width : Option Nat)
    (_capacity : Nat) : Paragraph :=
  { buffer := [], max_width }

/-- `impl Write for Paragraph` (`default.rs` lines 53-75): with a `max_width`,
hard breaks are normalized and whitespace-only writes become a single space;
otherwise the text is appended unchanged. -/
def Paragraph.write_str (p : Paragraph) (s : Str) : Paragraph :=
  if p.max_width.isSome && is_hard_break s then
    { p with buffer := p.buffer ++ MARKDOWN_HARD_BREAK }
  else if p.max_width.isSome && (trim s).isEmpty then
    { p with buffer := p.buffer ++ [' '] }
  else { p with buffer := p.buffer ++ s }

/-- `Paragraph::is_empty`. -/
def Paragraph.is_empty (p : Paragraph) : Bool := p.buffer.isEmpty

/-- Worker for splitting a buffer on `MARKDOWN_HARD_BREAK` (the
`split(MARKDOWN_HARD_BREAK)` call in `Paragraph::into_buffer`). -/
def splitOnHardBreak : Str → List Str
  | ' ' :: ' ' :: '\n' :: rest => [] :: splitOnHardBreak rest
  | c :: rest =>
    match splitOnHardBreak rest with
    | chunk :: chunks => (c :: chunk) :: chunks
    | [] => [[c]]
  | [] => [[]]

/-- Interleave `MARKDOWN_HARD_BREAK` between wrapped chunks, as the
`while let` loop of `Paragraph::into_buffer` does. -/
def joinHardBreaks : List Str → Str
  | [] => []
  | [chunk] => chunk
  | chunk :: chunks => chunk ++ MARKDOWN_HARD_BREAK ++ joinHardBreaks chunks

/-- `Paragraph::into_buffer` (`default.rs` lines 94-128).  `fill w text` stands
for `textwrap::fill` of the external `textwrap` crate, abstracted as a
parameter. -/
def Paragraph.into_buffer (p : Paragraph) (fill : Nat → Str → Str) : Str :=
  match p.max_width with
  | none => p.buffer
  | some max_width =>
    if (rustLines p.buffer).all (fun l => l.length ≤ max_width) then p.buffer
    else joinHardBreaks ((splitOnHardBreak p.buffer).map (fill max_width))

/-- `default.rs::TrimTo4Indent`: trims each line's leading spaces down to a
multiple of four. -/
structure TrimTo4Indent where
  buffer : Str
  context : FormattingContext
  deriving DecidableEq, Repr

/-- `TrimTo4Indent::new`. -/
def TrimTo4Indent.new (buffer_type : BufferType) (_max_width : Option Nat)
    (_capacity : Nat) : TrimTo4Indent :=
  { buffer := [], context := buffer_type.to_formatting_context }

/-- One line of `impl Write for TrimTo4Indent`: at a line start (buffer empty
or ending in a newline), drop `count-of-leading-spaces % 4` leading spaces. -/
def TrimTo4Indent.writeLine (b : TrimTo4Indent) (line : Str) : TrimTo4Indent :=
  let line :=
    match b.buffer.getLast? with
    | some '\n' | none =>
      let n := (line.takeWhile (· == ' ')).length % 4
      if n > 0 then line.drop n else line
    | _ => line
  { b with buffer := b.buffer ++ line }

/-- `impl Write for TrimTo4Indent` (`default.rs` lines 137-156). -/
def TrimTo4Indent.write_str (b : TrimTo4Indent) (s : Str) : TrimTo4Indent :=
  (splitInclusiveNl s).foldl TrimTo4Indent.writeLine b

/-- `external_formatter.rs::FormatterCombination`, instantiated at the
`DefaultFormatterCombination` alias of `default.rs`:
`FormatterCombination<PreservingBuffer, TrimTo4Indent, TrimTo4Indent,
Paragraph>`. -/
inductive DefaultFormatterCombination
  | CodeBlock (c : PreservingBuffer)
  | DisplayMath (d : TrimTo4Indent)
  | HtmlBlock (h : TrimTo4Indent)
  | Paragraph (p : Paragraph)
  deriving DecidableEq, Repr

/-- `ExternalFormatter::new` for `FormatterCombination`. -/
def DefaultFormatterCombination.new (buffer_type : BufferType)
    (max_width : Option Nat) (capacity : Nat) : DefaultFormatterCombination :=
  match buffer_type with
  | .CodeBlock _ => .CodeBlock (PreservingBuffer.new buffer_type max_width capacity)
  | .DisplayMath => .DisplayMath (TrimTo4Indent.new buffer_type max_width capacity)
  | .HtmlBlock => .HtmlBlock (TrimTo4Indent.new buffer_type max_width capacity)
  | .Paragraph => .Paragraph (Paragraph.new buffer_type max_width capacity)

/-- `impl Write for FormatterCombination`. -/
def DefaultFormatterCombination.write_str (f : DefaultFormatterCombination)
    (s : Str) : DefaultFormatterCombination :=
  match f with
  | .CodeBlock c => .CodeBlock (c.write_str s)
  | .DisplayMath d => .DisplayMath (d.write_str s)
  | .HtmlBlock h => .HtmlBlock (h.write_str s)
  | .Paragraph p => .Paragraph (p.write_str s)

/-- `ExternalFormatter::is_empty` for `FormatterCombination`. -/
def DefaultFormatterCombination.is_empty : DefaultFormatterCombination → Bool
  | .CodeBlock c => c.buffer.isEmpty
  | .DisplayMath d => d.buffer.isEmpty
  | .HtmlBlock h => h.buffer.isEmpty
  | .Paragraph p => p.is_empty

/-- `ExternalFormatter::context` for `FormatterCombination`.
`Paragraph::context` is the constant `FormattingContext::Paragraph`. -/
def DefaultFormatterCombination.context : DefaultFormatterCombination → FormattingContext
  | .CodeBlock c => c.context
  | .DisplayMath d => d.context
  | .HtmlBlock h => h.context
  | .Paragraph _ => .Paragraph

/-- `ExternalFormatter::into_buffer` for `FormatterCombination` (`fill`
abstracts `textwrap::fill`, used only by the `Paragraph` arm). -/
def DefaultFormatterCombination.into_buffer (f : DefaultFormatterCombination)
    (fill : Nat → Str → Str) : Str :=
  match f with
  | .CodeBlock c => c.buffer
  | .DisplayMath d => d.buffer
  | .HtmlBlock h => h.buffer
  | .Paragraph p => p.into_buffer fill

/-! ## The `pulldown_cmark` event model

The upstream parser's `Event`, `Tag` and `TagEnd` types, restricted to the
payloads the embedded code reads.  `Tag::BlockQuote`'s kind payload is ignored
by every embedded function (`Tag::BlockQuote(_)` in the source) and omitted. -/

/-- `pulldown_cmark::HeadingLevel`. -/
inductive HeadingLevel
  | H1 | H2 | H3 | H4 | H5 | H6
  deriving DecidableEq, Repr

/-- `pulldown_cmark::CodeBlockKind`. -/
inductive CodeBlockKind
  | Fenced (info : Str)
  | Indented
  deriving DecidableEq, Repr

/-- `pulldown_cmark::MetadataBlockKind`. -/
inductive MetadataBlockKind
  | YamlStyle
  | PlusesStyle
  deriving DecidableEq, Repr

/-- `pulldown_cmark::LinkType`. -/
inductive LinkType
  | Inline | Reference | ReferenceUnknown | Collapsed | CollapsedUnknown
  | Shortcut | ShortcutUnknown | Autolink | Email
  deriving DecidableEq, Repr

/-- `pulldown_cmark::Alignment` for table columns. -/
inductive Alignment
  | NoAlignment | AlignLeft | AlignCenter | AlignRight
  deriving DecidableEq, Repr

/-- A table's per-column alignments (spelled out so that the `Tag.List`
constructor cannot shadow the `List` type inside the declaration of `Tag`). -/
abbrev AlignmentList := List Alignment

/-- `pulldown_cmark::Tag`. -/
inductive Tag
  | Paragraph
  | Heading (level : HeadingLevel) (id : Option Str) (classes : List Str)
  | BlockQuote
  | CodeBlock (kind : CodeBlockKind)
  | List (first_number : Option Nat)
  | Item
  | FootnoteDefinition (label : Str)
  | HtmlBlock
  | Emphasis
  | Strong
  | Strikethrough
  | Link (link_type : LinkType) (dest_url : Str) (title : Str)
  | Image (link_type : LinkType) (dest_url : Str) (title : Str)
  | Table (alignments : AlignmentList)
  | TableHead
  | TableRow
  | TableCell
  | MetadataBlock (kind : MetadataBlockKind)
  deriving DecidableEq, Repr

/-- `pulldown_cmark::TagEnd`. -/
inductive TagEnd
  | Paragraph
  | Heading (level : HeadingLevel)
  | BlockQuote
  | CodeBlock
  | List (is_ordered : Bool)
  | Item
  | FootnoteDefinition
  | HtmlBlock
  | Emphasis
  | Strong
  | Strikethrough
  | Link
  | Image
  | Table
  | TableHead
  | TableRow
  | TableCell
  | MetadataBlock (kind : MetadataBlockKind)
  deriving DecidableEq, Repr

/-- `pulldown_cmark::Event`. -/
inductive Event
  | Start (tag : Tag)
  | End (tag : TagEnd)
  | Text (s : Str)
  | Code (s : Str)
  | Html (s : Str)
  | InlineHtml (s : Str)
  | SoftBreak
  | HardBreak
  | Rule
  | FootnoteReference (label : Str)
  | TaskListMarker (done : Bool)
  | InlineMath (s : Str)
  | DisplayMath (s : Str)
  deriving DecidableEq, Repr

/-! ## `src/adapters/sequential_blocks.rs` — the sequential-block adapter -/

/-- `sequential_blocks.rs::context_of_tag`. -/
def context_of_tag : Tag → Option FormattingContext
  | .CodeBlock _ => some .CodeBlock
  | .HtmlBlock => some .HtmlBlock
  | .Paragraph => some .Paragraph
  | _ => none

/-- `sequential_blocks.rs::context_of_tag_end`. -/
def context_of_tag_end : TagEnd → Option FormattingContext
  | .CodeBlock => some .CodeBlock
  | .HtmlBlock => some .HtmlBlock
  | .Paragraph => some .Paragraph
  | _ => none

/-- `sequential_blocks.rs::SequentialBlockAdapter`.  The lazy inner iterator
becomes the list of its not-yet-consumed items; `out_of_place_events` is the
FIFO replay queue (`VecDeque`). -/
structure SequentialBlockAdapter where
  inner : List (Event × SrcRange)
  context : Option FormattingContext
  out_of_place_events : List (Event × SrcRange)
  deriving DecidableEq, Repr

/-- The `panic!("No matching end tag found")` of
`exhaust_mismatching_context`, embedded as an error value. -/
inductive AdapterPanic
  | noMatchingEndTag
  deriving DecidableEq, Repr

/-- `SequentialBlockAdapter::exhaust_mismatching_context` (lines 110-123):
scan the inner iterator for the first `End` whose context matches `ctx`,
caching every earlier event.  Returns `(cached events, matching end, rest of
the inner iterator)`, or `none` where the Rust code panics. -/
def exhaust_mismatching_context (ctx : Option FormattingContext) :
    List (Event × SrcRange)
      → Option (List (Event × SrcRange) × (Event × SrcRange) × List (Event × SrcRange))
  | [] => none
  | (event, range) :: rest =>
    match event with
    | .End tag =>
      if context_of_tag_end tag == ctx then some ([], (event, range), rest)
      else
        (exhaust_mismatching_context ctx rest).map
          (fun r => ((event, range) :: r.1, r.2))
    | _ =>
      (exhaust_mismatching_context ctx rest).map
        (fun r => ((event, range) :: r.1, r.2))

/-- `self.out_of_place_events.pop_front().or_else(|| self.inner.next())`:
the popped item together with the updated queue and inner iterator. -/
def SequentialBlockAdapter.popFront (s : SequentialBlockAdapter) :
    Option ((Event × SrcRange)
      × List (Event × SrcRange) × List (Event × SrcRange)) :=
  match s.out_of_place_events with
  | e :: q => some (e, q, s.inner)
  | [] =>
    match s.inner with
    | e :: rest => some (e, [], rest)
    | [] => none

/-- `impl Iterator for SequentialBlockAdapter`, `next` (lines 42-73).  The
`debug_assert_eq!` in the `End` arm is compiled out.  `.error` marks the
panic raised inside `exhaust_mismatching_context`. -/
def SequentialBlockAdapter.next (s : SequentialBlockAdapter) :
    Except AdapterPanic (Option ((Event × SrcRange) × SequentialBlockAdapter)) :=
  match s.popFront with
  | none => .ok none
  | some ((event, range), queue, inner) =>
    match event with
    | .Start tag =>
      match context_of_tag tag with
      | some c =>
        match s.context with
        | none => .ok (some ((event, range), ⟨inner, some c, queue⟩))
        | some _ =>
          -- Entering a new context without exiting the current one.
          let queue := queue ++ [(event, range)]
          match exhaust_mismatching_context s.context inner with
          | some (buffered, found, rem) =>
            .ok (some (found, ⟨rem, none, queue ++ buffered⟩))
          | none => .error .noMatchingEndTag
      | none => .ok (some ((event, range), ⟨inner, s.context, queue⟩))
    | .End tag =>
      match context_of_tag_end tag with
      | some _ => .ok (some ((event, range), ⟨inner, none, queue⟩))
      | none => .ok (some ((event, range), ⟨inner, s.context, queue⟩))
    | _ => .ok (some ((event, range), ⟨inner, s.context, queue⟩))

/-- Does this `(Event, Range)` pair end the context `ctx`?  (The guard of the
first arm of `exhaust_mismatching_context`'s match.) -/
def is_matching_end (ctx : Option FormattingContext) (x : Event × SrcRange) : Bool :=
  match x.1 with
  | .End tag => context_of_tag_end tag == ctx
  | _ => false

/-! ## Reference-link definitions (`formatter/formatting_states.rs`,
`formatter/formatting_states/helpers.rs`)

**Stack-order convention.**  The engine keeps the pending definitions in a
`Vec` sorted by span start *descending* (`formatter.rs` lines 76-117 sorts
them that way on construction) and pops from the `Vec`'s end.  We store the
same stack with the Lean list's head being the `Vec`'s *last* element (the
top of the stack), so the list is ascending in span start and popping is
structural recursion. -/

/-- `formatting_states.rs::ReferenceLinkDefinition`: label, destination,
optional `(title, quote char)`, and the definition's source span. -/
structure ReferenceLinkDefinition where
  label : Str
  dest : Str
  title : Option (Str × Char)
  span : SrcRange
  deriving DecidableEq, Repr

/-- The selection loop of `rewrite_reference_link_definitions` (`helpers.rs`
lines 292-323), instrumented to return which definitions are flushed (in
emission order) and which remain on the stack.  The loop breaks as soon as
the stack is empty or its top starts after the upcoming `Start` event
(`link_range.start > range.start`); otherwise it pops and emits the top. -/
def rewrite_reference_link_definitions_selected :
    List ReferenceLinkDefinition → Nat
      → List ReferenceLinkDefinition × List ReferenceLinkDefinition
  | [], _ => ([], [])
  | d :: rest, range_start =>
    if range_start < d.span.start then ([], d :: rest)
    else
      let r := rewrite_reference_link_definitions_selected rest range_start
      (d :: r.1, r.2)

/-- `rewrite_final_reference_links` (`helpers.rs` lines 326-341) flushes the
remaining stack from the `Vec`'s end to its start (`into_iter().rev()`,
"need to iterate in reverse because reference_links is a stack"); in the
stack-order convention above, that is exactly the list order. -/
def rewrite_final_reference_links_order
    (refs : List ReferenceLinkDefinition) : List ReferenceLinkDefinition := refs

/-! ## `src/formatter/formatting_states.rs` — the format engine

The engine is generic over an `ExternalFormatter` `E`; it is embedded here at
`E = DefaultFormatterCombination`, the default used by
`MarkdownFormatter<DefaultFormatterCombination>`.

Stack conventions: `nested_context` is stored with the Lean list's head being
the Rust `Vec`'s last element (the top of the stack); `indentation` is stored
in `Vec` order because `write_indentation` iterates it front to back;
`reference_links` follows the stack-order convention documented above.

The `table_state` field is omitted: its type lives in `src/table.rs`, which
is absent from this snapshot, and every event kind that could create or write
a table state is rejected by `format_one_event` below, so no run this file
reasons about ever touches it.  Only the event kinds the claims need are
embedded; `format_one_event` rejects the remaining kinds with an explicit
`unsupportedConstruct` error, so no theorem can silently rely on an
unmodelled construct. -/

/-- The embedded engine's per-document state
(`formatting_states.rs::FormatState`).  The `Peekable` event iterator becomes
the list of not-yet-consumed `(Event, Range)` pairs. -/
structure FormatState where
  input : Str
  last_was_softbreak : Bool
  events : List (Event × SrcRange)
  rewrite_buffer : Str
  external_formatter : Option DefaultFormatterCombination
  indentation : List Str
  nested_context : List Tag
  reference_links : List ReferenceLinkDefinition
  setext_header : Option Str
  header_id_and_classes : Option (Option Str × List Str)
  needs_indent : Bool
  last_position : Nat
  trim_link_or_image_start : Bool
  force_rewrite_buffer : Bool
  config : Config
  deriving Repr

/-- The panics of the engine (`expect`/`unreachable!`) and the event kinds
this embedding does not support. -/
inductive EngineLimitation
  | unsupportedConstruct
  | brokenInvariant
  deriving DecidableEq, Repr

/-- `FormatState::new`. -/
def FormatState.new (input : Str) (config : Config)
    (iter : List (Event × SrcRange))
    (reference_links : List ReferenceLinkDefinition) : FormatState where
  input := input
  last_was_softbreak := false
  events := iter
  rewrite_buffer := []
  external_formatter := none
  indentation := []
  nested_context := []
  reference_links := reference_links
  setext_header := none
  header_id_and_classes := none
  needs_indent := false
  last_position := 0
  trim_link_or_image_start := false
  force_rewrite_buffer := false
  config := config

/-- `FormatState::peek`. -/
def FormatState.peek (s : FormatState) : Option Event := s.events.head?.map Prod.fst

/-- `FormatState::is_next_end_event`. -/
def FormatState.is_next_end_event (s : FormatState) : Bool :=
  match s.peek with
  | some (.End _) => true
  | _ => false

/-- `FormatState::check_needs_indent` (`helpers.rs` lines 30-37). -/
def FormatState.check_needs_indent (s : FormatState) (event : Event) : FormatState :=
  let needs_indent :=
    match s.peek with
    | some (.Start _) | some .Rule | some (.Html _) | some (.End .Item) => true
    | some (.End .BlockQuote) =>
      match event with
      | .End _ => true
      | _ => false
    | some (.Text _) =>
      match event with
      | .End _ => true
      | .Start .Item => true
      | _ => false
    | _ =>
      match event with
      | .Rule => true
      | _ => false
  { s with needs_indent := needs_indent }

/-- `FormatState::in_fenced_code_block`. -/
def FormatState.in_fenced_code_block (s : FormatState) : Bool :=
  match s.nested_context.head? with
  | some (.CodeBlock (.Fenced _)) => true
  | _ => false

/-- `FormatState::in_indented_code_block`. -/
def FormatState.in_indented_code_block (s : FormatState) : Bool :=
  match s.nested_context.head? with
  | some (.CodeBlock .Indented) => true
  | _ => false

/-- `FormatState::in_html_block`: the open external formatter's context is
`HtmlBlock`. -/
def FormatState.in_html_block (s : FormatState) : Bool :=
  s.external_formatter.map DefaultFormatterCombination.context
    == some FormattingContext.HtmlBlock

/-- `FormatState::in_table_header`. -/
def FormatState.in_table_header (s : FormatState) : Bool :=
  s.nested_context.contains .TableHead

/-- `FormatState::in_table_row`. -/
def FormatState.in_table_row (s : FormatState) : Bool :=
  s.nested_context.contains .TableRow

/-- `FormatState::in_link_or_image`. -/
def FormatState.in_link_or_image (s : FormatState) : Bool :=
  match s.nested_context.head? with
  | some (.Link _ _ _) | some (.Image _ _ _) => true
  | _ => false

/-- `FormatState::in_paragraph`: the open external formatter's context is
`Paragraph`. -/
def FormatState.in_paragraph (s : FormatState) : Bool :=
  s.external_formatter.map DefaultFormatterCombination.context
    == some FormattingContext.Paragraph

/-- `FormatState::is_nested`. -/
def FormatState.is_nested (s : FormatState) : Bool := !s.nested_context.isEmpty

/-- `impl Write for FormatState` together with `current_buffer` (`helpers.rs`
lines 103-129): route the text to the forced rewrite buffer, the external
formatter, or the main rewrite buffer, using the same priority chain.  When
`current_buffer` returns `None` the write is dropped (`Ok(())`).  The
table-state branch returns the state unchanged: the table buffer lives in the
absent `table.rs` and `Table` events are rejected, so the branch is
unreachable in any run this file reasons about. -/
def FormatState.write_str (s : FormatState) (text : Str) : FormatState :=
  if s.force_rewrite_buffer then
    { s with rewrite_buffer := s.rewrite_buffer ++ text }
  else if s.in_fenced_code_block || s.in_indented_code_block then
    match s.external_formatter with
    | some f => { s with external_formatter := some (f.write_str text) }
    | none => s
  else if s.in_html_block then
    match s.external_formatter with
    | some f => { s with external_formatter := some (f.write_str text) }
    | none => s
  else if s.in_table_header || s.in_table_row then
    s
  else
    match s.external_formatter with
    | some f => { s with external_formatter := some (f.write_str text) }
    | none => { s with rewrite_buffer := s.rewrite_buffer ++ text }

/-- `FormatState::is_current_buffer_empty` (`helpers.rs` lines 132-144).  In
the table branch, the absent `table_state` is `None`, so `is_some_and` is
`false`. -/
def FormatState.is_current_buffer_empty (s : FormatState) : Bool :=
  if s.in_fenced_code_block || s.in_indented_code_block || s.in_html_block then
    match s.external_formatter with
    | some f => f.is_empty
    | none => false
  else if s.in_table_header || s.in_table_row then
    false
  else
    match s.external_formatter with
    | some f => f.is_empty
    | none => s.rewrite_buffer.isEmpty

/-- `FormatState::count_newlines` (`helpers.rs` lines 146-160). -/
def FormatState.count_newlines (s : FormatState) (range : SrcRange) : Nat :=
  if s.last_position == range.start then 0
  else
    let snippet :=
      if s.last_position < range.start then
        strSlice s.input s.last_position range.start
      else
        trimEndMatchesChar (strSlice s.input s.last_position range.stop) '\n'
    count_newlines_in snippet

/-- `indentation.iter().rposition(|indent| !indent.chars().all(whitespace))`. -/
def rpositionNonWhitespace (indentation : List Str) : Option Nat :=
  match indentation.reverse.findIdx? (fun ind => !ind.all Char.isWhitespace) with
  | some i => some (indentation.length - 1 - i)
  | none => none

/-- The write loop of `write_indentation`: write each indent of the prefix,
trimming the one at `pos` when requested. -/
def writeIndentsGo (pos : Nat) (trim_trailing : Bool) :
    Nat → List Str → FormatState → FormatState
  | _, [], s => s
  | i, ind :: rest, s =>
    let s := if i == pos && trim_trailing then s.write_str (trim ind)
      else s.write_str ind
    writeIndentsGo pos trim_trailing (i + 1) rest s

/-- `FormatState::write_indentation` (`helpers.rs` lines 162-196). -/
def FormatState.write_indentation (s : FormatState)
    (trim_trailing_whitespace : Bool) : FormatState :=
  let position? : Option Nat :=
    if trim_trailing_whitespace then rpositionNonWhitespace s.indentation
    else some s.indentation.length
  match position? with
  | none => s
  | some position =>
    writeIndentsGo position trim_trailing_whitespace 0
      (s.indentation.take (position + 1)) s

/-- The newline-writing loop of `write_newlines_inner`: `n` is the number of
newlines still to write, so the current iteration is the last one when `n`
becomes zero afterwards. -/
def writeNewlinesGo (nested always_trim : Bool) :
    Nat → FormatState → FormatState
  | 0, s => s
  | Nat.succ n, s =>
    let s := s.write_str ['\n']
    let s := if nested then s.write_indentation (decide (n ≠ 0) || always_trim)
      else s
    writeNewlinesGo nested always_trim n s

/-- `FormatState::write_newlines_inner` (`helpers.rs` lines 209-242). -/
def FormatState.write_newlines_inner (s : FormatState) (max_newlines : Nat)
    (always_trim_trailing_whitespace : Bool) : FormatState :=
  if s.is_current_buffer_empty then s
  else
    let newlines := (s.rewrite_buffer.reverse.takeWhile (· == '\n')).length
    let nested := s.is_nested
    let newlines_to_write := max_newlines - newlines
    let next_is_end_event := s.is_next_end_event
    let s := writeNewlinesGo nested always_trim_trailing_whitespace
      newlines_to_write s
    if !nested then
      s.write_indentation (next_is_end_event || always_trim_trailing_whitespace)
    else s

/-- `FormatState::write_newlines`. -/
def FormatState.write_newlines (s : FormatState) (max_newlines : Nat) : FormatState :=
  s.write_newlines_inner max_newlines false

/-- `FormatState::write_newlines_no_trailing_whitespace`. -/
def FormatState.write_newlines_no_trailing_whitespace (s : FormatState)
    (max_newlines : Nat) : FormatState :=
  s.write_newlines_inner max_newlines true

/-- `FormatState::write_reference_link_definition_inner` (`helpers.rs` lines
275-290): `[label]: dest` plus an optional quoted title, with `<>`-wrapping
of the destination via `format_link_url(dest, true)`. -/
def FormatState.write_reference_link_definition_inner (s : FormatState)
    (label dest : Str) (title : Option (Str × Char)) : FormatState :=
  let dest := format_link_url dest true
  let s := s.write_newlines 1
  match title with
  | some (t, quote) =>
    s.write_str ('[' :: trim label ++ [']', ':', ' '] ++ dest
      ++ [' ', quote] ++ t ++ [quote])
  | none => s.write_str ('[' :: trim label ++ [']', ':', ' '] ++ dest)

/-- The pop-and-flush loop of `rewrite_reference_link_definitions`
(`helpers.rs` lines 302-318), on the stack-ordered list; the surviving stack
is written back to the state at exit. -/
def refDefsFlushLoop : List ReferenceLinkDefinition → SrcRange → FormatState
    → FormatState
  | [], _, s => { s with reference_links := [] }
  | d :: rest, range, s =>
    if range.start < d.span.start then { s with reference_links := d :: rest }
    else
      let newlines := s.count_newlines d.span
      let s := s.write_newlines newlines
      let s := s.write_reference_link_definition_inner d.label d.dest d.title
      let s := { s with last_position := d.span.stop, needs_indent := true }
      refDefsFlushLoop rest range s

/-- `FormatState::rewrite_reference_link_definitions` (`helpers.rs` lines
292-323). -/
def FormatState.rewrite_reference_link_definitions (s : FormatState)
    (range : SrcRange) : FormatState :=
  if s.reference_links.isEmpty then s
  else refDefsFlushLoop s.reference_links range s

/-- The flush loop of `rewrite_final_reference_links` (`helpers.rs` lines
326-341); iteration from the `Vec`'s end is the stack-ordered list order. -/
def finalRefsLoop : List ReferenceLinkDefinition → FormatState → FormatState
  | [], s => s
  | d :: rest, s =>
    let newlines := s.count_newlines d.span
    let s := s.write_newlines newlines
    let s := s.write_reference_link_definition_inner d.label d.dest d.title
    let s := { s with last_position := d.span.stop }
    finalRefsLoop rest s

/-- `FormatState::rewrite_final_reference_links`: flush every remaining
definition, then return the rewrite buffer. -/
def FormatState.rewrite_final_reference_links (s : FormatState) : Str :=
  (finalRefsLoop s.reference_links { s with reference_links := [] }).rewrite_buffer

/-- `FormatState::write_metadata_block_separator` (`helpers.rs` lines
422-434): up to the source's newline count, then the delimiter and a
newline (`writeln!`). -/
def FormatState.write_metadata_block_separator (s : FormatState)
    (kind : MetadataBlockKind) (range : SrcRange) : FormatState :=
  let newlines := s.count_newlines range
  let s := s.write_newlines newlines
  let marker : Str :=
    match kind with
    | .YamlStyle => ['-', '-', '-']
    | .PlusesStyle => ['+', '+', '+']
  s.write_str (marker ++ ['\n'])

/-- Modelled from the spec: the `needs_escape` policy is implemented in
`src/escape.rs`, which `lib.rs` declares (`mod escape;`) but which is absent
from this snapshot.  Spec §4.3: "text starting with a backslash-escape in
source, or containing characters that would be reinterpreted by CommonMark if
left unescaped (leading/trailing punctuation ambiguity, etc.), is re-escaped
on output; exact predicate is the `needs_escape` policy".  We model the
predicate as: the text begins with a character that could open a Markdown
construct.  The concrete runs below only evaluate it on text beginning with
an alphanumeric character, where every faithful reading of the policy
returns `false`. -/
def FormatState.needs_escape (_s : FormatState) (text : Str) : Bool :=
  match text.head? with
  | some c => ['#', '>', '*', '+', '-', '=', '`', '~', '_', '|', '!', '['].contains c
  | none => false

/-- `helpers.rs::rewirte_header_classes` (sic): ` .class` for each class. -/
def rewirte_header_classes (classes : List Str) : Str :=
  classes.foldl (fun result cls => result ++ [' ', '.'] ++ cls) []

/-- `format.rs::start_tag` (`formatter/formatting_states/format.rs` lines
148-486), restricted to the `Heading` (lines 160-199) and `MetadataBlock`
(lines 481-483) arms; every other tag kind is rejected as unsupported. -/
def FormatState.start_tag (s : FormatState) (tag : Tag) (range : SrcRange) :
    Except EngineLimitation FormatState :=
  match tag with
  | .Heading level id classes =>
    let s := { s with header_id_and_classes := some (id, classes) }
    let s :=
      if s.needs_indent then
        let newlines := s.count_newlines range
        let s := s.write_newlines newlines
        { s with needs_indent := false }
      else s
    let full_header := trim (strSlice s.input range.start range.stop)
    if containsChar full_header '\n'
        && (endsWithChar full_header '=' || endsWithChar full_header '-') then
      -- alternative (setext) syntax for H1 and H2; handled in `end_tag`
      let header_marker := trim ((splitChar full_header '\n').getLastD [])
      .ok { s with setext_header := some header_marker }
    else
      let header : Str :=
        match level with
        | .H1 => ['#', ' ']
        | .H2 => ['#', '#', ' ']
        | .H3 => ['#', '#', '#', ' ']
        | .H4 => ['#', '#', '#', '#', ' ']
        | .H5 => ['#', '#', '#', '#', '#', ' ']
        | .H6 => ['#', '#', '#', '#', '#', '#', ' ']
      let empty_header :=
        (trimEndMatchesPred (trimStartMatchesStr full_header header)
          (fun c => c.isWhitespace || c == '#' || c == '\\')).isEmpty
      if empty_header then .ok (s.write_str (trim header))
      else .ok (s.write_str header)
  | .MetadataBlock kind => .ok (s.write_metadata_block_separator kind range)
  | _ => .error .unsupportedConstruct

/-- `format.rs::end_tag` (lines 488-686), restricted to the `Heading` (lines
495-519), `FootnoteDefinition` (line 600, a no-op) and `MetadataBlock` (lines
681-683) arms; every other tag kind is rejected as unsupported.  The
`expect("Should have pushed a header tag")` panic becomes
`brokenInvariant`. -/
def FormatState.end_tag (s : FormatState) (tag : TagEnd) (range : SrcRange) :
    Except EngineLimitation FormatState :=
  match tag with
  | .Heading _ =>
    match s.header_id_and_classes with
    | none => .error .brokenInvariant
    | some (fragment_identifier, classes) =>
      let s := { s with header_id_and_classes := none }
      let s :=
        match fragment_identifier, classes.isEmpty with
        | some id, false =>
          s.write_str ([' ', '{', '#'] ++ id
            ++ rewirte_header_classes classes ++ ['}'])
        | some id, true => s.write_str ([' ', '{', '#'] ++ id ++ ['}'])
        | none, false =>
          s.write_str ([' ', '{'] ++ trim (rewirte_header_classes classes) ++ ['}'])
        | none, true => s
      match s.setext_header with
      | some marker =>
        let s := { s with setext_header := none }
        let s := s.write_newlines 1
        .ok (s.write_str marker)
      | none => .ok s
  | .FootnoteDefinition => .ok s
  | .MetadataBlock kind => .ok (s.write_metadata_block_separator kind range)
  | _ => .error .unsupportedConstruct

/-- `input[..range.end].char_indices().rev().find(|(_, c)| !c.is_whitespace())
.map(|(i, _)| i).unwrap_or(0)`: the position of the last non-whitespace
character before `range.end`, defaulting to 0. -/
def lastNonWhitespacePos (l : Str) : Nat :=
  match l.reverse.findIdx? (fun c => !c.isWhitespace) with
  | some i => l.length - 1 - i
  | none => 0

/-- Is the next event the `End` of a link or image?  (The
`matches!(self.peek(), Some(Event::End(TagEnd::Link {..} | Image {..})))`
idiom of the `Text` and `SoftBreak` arms.) -/
def FormatState.peek_is_link_or_image_end (s : FormatState) : Bool :=
  match s.peek with
  | some (.End .Link) | some (.End .Image) => true
  | _ => false

/-- `format.rs::format_one_event` (lines 8-146).  The `DisplayMath` arm
(which opens an external formatter) is not embedded and is rejected. -/
def FormatState.format_one_event (s : FormatState) (event : Event)
    (range : SrcRange) : Except EngineLimitation FormatState :=
  let last_position := lastNonWhitespacePos (s.input.take range.stop)
  match event with
  | .Start tag =>
    let s := s.rewrite_reference_link_definitions range
    match s.start_tag tag range with
    | .error e => .error e
    | .ok s => .ok { s with last_position := range.start }
  | .End tag =>
    match s.end_tag tag range with
    | .error e => .error e
    | .ok s =>
      let s := s.check_needs_indent (Event.End tag)
      .ok { s with last_position := last_position }
  | .Text parsed_text =>
    if (match s.external_formatter with
        | some f => f.context != FormattingContext.Paragraph
        | none => false) then
      -- external formatting: write the text as is
      .ok { s.write_str parsed_text with last_position := last_position }
    else
      let starts_with_escape := endsWithChar (s.input.take range.start) '\\'
      let newlines := s.count_newlines range
      let text_from_source := strSlice s.input range.start range.stop
      let text :=
        if text_from_source.isEmpty then parsed_text else text_from_source
      let (text, s) :=
        if s.in_link_or_image && s.trim_link_or_image_start then
          (trimStart text, { s with trim_link_or_image_start := false })
        else (text, s)
      let text := if s.peek_is_link_or_image_end then trimEnd text else text
      let s := if s.needs_indent then s.write_newlines newlines else s
      let s :=
        if starts_with_escape || s.needs_escape text then
          s.write_str ('\\' :: text)
        else s.write_str text
      let s := s.check_needs_indent (Event.Text parsed_text)
      .ok { s with last_position := range.stop }
  | .DisplayMath _ => .error .unsupportedConstruct
  | .Code _ =>
    .ok { s.write_str (strSlice s.input range.start range.stop) with
      last_position := last_position }
  | .Html _ =>
    .ok { s.write_str (strSlice s.input range.start range.stop) with
      last_position := last_position }
  | .SoftBreak =>
    if s.in_link_or_image then
      let next_is_end := s.peek_is_link_or_image_end
      if s.trim_link_or_image_start || next_is_end then
        .ok { s with
          trim_link_or_image_start := false
          last_position := range.stop }
      else .ok { s.write_str [' '] with last_position := range.stop }
    else
      let s := s.write_str (strSlice s.input range.start range.stop)
      -- paragraphs write their indentation after reformatting the text
      let s := if !s.in_paragraph then s.write_indentation false else s
      .ok { s with
        last_was_softbreak := true
        last_position := range.stop }
  | .HardBreak =>
    .ok { s.write_str (strSlice s.input range.start range.stop) with
      last_position := last_position }
  | .InlineHtml _ =>
    let newlines := s.count_newlines range
    let s := if s.needs_indent then s.write_newlines newlines else s
    let s := s.write_str
      (trimEndMatchesChar (strSlice s.input range.start range.stop) '\n')
    let s := s.check_needs_indent event
    .ok { s with last_position := last_position }
  | .InlineMath _ =>
    let newlines := s.count_newlines range
    let s := if s.needs_indent then s.write_newlines newlines else s
    let s := s.write_str
      (trimEndMatchesChar (strSlice s.input range.start range.stop) '\n')
    let s := s.check_needs_indent event
    .ok { s with last_position := last_position }
  | .Rule =>
    let newlines := s.count_newlines range
    let s := s.write_newlines newlines
    let s := s.write_str (strSlice s.input range.start range.stop)
    let s := s.check_needs_indent Event.Rule
    .ok { s with last_position := last_position }
  | .FootnoteReference text =>
    .ok { s.write_str ('[' :: '^' :: text ++ [']']) with
      last_position := last_position }
  | .TaskListMarker done =>
    if done then
      .ok { s.write_str ['[', 'x', ']', ' '] with last_position := last_position }
    else
      .ok { s.write_str ['[', ' ', ']', ' '] with last_position := last_position }

/-- The `while let Some((event, range)) = self.events.next()` loop of
`FormatState::format`: each event is processed with the iterator already
advanced past it (`Peekable::peek` then sees the following event). -/
def formatGo : List (Event × SrcRange) → FormatState
    → Except EngineLimitation FormatState
  | [], s => .ok s
  | (event, range) :: rest, s =>
    match FormatState.format_one_event { s with events := rest } event range with
    | .error e => .error e
    | .ok s => formatGo rest s

/-- `FormatState::format` (`formatting_states.rs` lines 119-131): run the
event loop, flush the leftover reference-link definitions, and append a
trailing newline exactly when the input ends with one.  (The
`debug_assert!(self.nested_context.is_empty())` is compiled out.) -/
def FormatState.format (s : FormatState) : Except EngineLimitation Str :=
  match formatGo s.events s with
  | .error e => .error e
  | .ok s =>
    let trailing_newline := endsWithChar s.input '\n'
    let output := s.rewrite_final_reference_links
    .ok (if trailing_newline then output ++ ['\n'] else output)

/-! ## Concrete event streams

Modelled from the spec: the event source is external ("parses raw text into
`(Event, byte-range)` pairs", spec §2 item 1, §6); the streams below are the
CommonMark/GFM tokenizations of the given inputs that the upstream
`pulldown_cmark` parser produces. -/

/-- The spec §8 heading-normalization input, `"#  Hello World! "`. -/
def helloInput : Str := "#  Hello World! ".toList

/-- Modelled from the spec: the event stream for `helloInput` — an ATX H1
heading spanning the whole input with its text (leading/trailing whitespace
excluded) at source positions 3..15. -/
def helloEvents : List (Event × SrcRange) :=
  [(Event.Start (Tag.Heading .H1 none []), ⟨0, 16⟩),
    (Event.Text "Hello World!".toList, ⟨3, 15⟩),
    (Event.End (TagEnd.Heading .H1), ⟨0, 16⟩)]

/-- A YAML metadata block whose closing delimiter is not followed by a
newline: `"---\na: b\n---"`. -/
def metaInput : Str := "---\na: b\n---".toList

/-- Modelled from the spec: the event stream for `metaInput` — a metadata
block (YAML style) spanning the whole input, with its text content
`"a: b\n"` at source positions 4..9. -/
def metaEvents : List (Event × SrcRange) :=
  [(Event.Start (Tag.MetadataBlock .YamlStyle), ⟨0, 12⟩),
    (Event.Text "a: b\n".toList, ⟨4, 9⟩),
    (Event.End (TagEnd.MetadataBlock .YamlStyle), ⟨0, 12⟩)]

/-! ## Theorems -/

/-- `from_str` on whitespace-only input. -/
theorem from_str_of_trim_empty {s : Str} (h : trim s = []) :
    ListMarker.from_str s = .error .NoMarkers := by
  simp [ListMarker.from_str, h]

/-- `from_str` succeeds on input with a non-whitespace character. -/
theorem from_str_of_trim_ne {s : Str} (h : ¬ trim s = []) :
    ListMarker.from_str s = .ok (.Unordered .Hyphen)
      ∨ ListMarker.from_str s = .ok (.Ordered 0 1 .Period) := by
  unfold ListMarker.from_str
  simp only [List.isEmpty_iff, h, if_false]
  by_cases h2 : ((trim s).head? == some '*' || (trim s).head? == some '+'
      || (trim s).head? == some '-') = true
  · exact Or.inl (by simp [h2])
  · exact Or.inr (by simp [h2])

/-- `Config::list_marker` succeeds exactly when `from_str` does. -/
theorem list_marker_isOk_eq (cfg : Config) (s : Str) :
    (cfg.list_marker s).isOk = (ListMarker.from_str s).isOk := by
  unfold Config.list_marker
  cases h : ListMarker.from_str s with
  | error e => simp [Except.isOk, Except.toBool]
  | ok lm =>
    cases lm with
    | Ordered a b c => simp [Except.isOk, Except.toBool]
    | Unordered m =>
      cases cfg.fixed_unordered_list_marker <;> simp [Except.isOk, Except.toBool]

/-- C9: `ListMarker::from_str` fails exactly on inputs that are empty after
trimming whitespace, and then always with `NoMarkers`; consequently
`Config::list_marker` can only fail on whitespace-only source text. -/
theorem from_str_error_iff_trim_empty (s : Str) (cfg : Config) :
    (ListMarker.from_str s = .error .NoMarkers ↔ trim s = [])
      ∧ (∀ e, ListMarker.from_str s = .error e → e = .NoMarkers)
      ∧ ((cfg.list_marker s).isOk = true ↔ ¬ trim s = []) := by
  by_cases h : trim s = []
  · refine ⟨⟨fun _ => h, fun _ => from_str_of_trim_empty h⟩, fun e he => ?_, ?_⟩
    · rw [from_str_of_trim_empty h] at he
      exact (Except.error.inj he).symm
    · rw [list_marker_isOk_eq, from_str_of_trim_empty h]
      simp [Except.isOk, Except.toBool, h]
  · have hok := from_str_of_trim_ne h
    refine ⟨⟨fun he => ?_, fun hc => absurd hc h⟩, fun e he => ?_, ?_⟩
    · rcases hok with h1 | h1 <;> rw [h1] at he <;> exact absurd he (by simp)
    · rcases hok with h1 | h1 <;> rw [h1] at he <;> exact absurd he (by simp)
    · rw [list_marker_isOk_eq]
      rcases hok with h1 | h1 <;> rw [h1] <;>
        simp [Except.isOk, Except.toBool, h]

/-- C5 counterexample: under the all-`None` default `Config`, the list item
source text `"* a"` (unordered, source marker `'*'`) is given the marker
`Unordered(Hyphen)`, whose emitted text is `"- "`: the source marker character
is not preserved. -/
theorem list_marker_source_not_preserved :
    (({} : Config).fixed_unordered_list_marker = none
        ∧ ({} : Config).fixed_ordered_list_marker = none
        ∧ ({} : Config).fixed_number = none
        ∧ ({} : Config).fixed_zero_padding = none)
      ∧ ({} : Config).list_marker ['*', ' ', 'a'] = .ok (.Unordered .Hyphen)
      ∧ item_marker_text (.Unordered .Hyphen) false = ['-', ' ']
      ∧ ('-' : Char) ≠ '*' :=
  ⟨⟨rfl, rfl, rfl, rfl⟩, rfl, rfl, by decide⟩

/-- C5 (amended): under a `Config` whose four fixed list-marker fields are all
`None`, the emitted marker does *not* preserve the source form; instead
`ListMarker::from_str` normalizes every unordered marker to `-` (emitted
`"- "`) and every ordered marker to number 1, zero padding 0, and `.` (emitted
`"1. "`), and the `None` fields pass that normalized marker through
unchanged. -/
theorem list_marker_all_fixed_none_normalizes (cfg : Config) (s : Str)
    (h1 : cfg.fixed_zero_padding = none) (h2 : cfg.fixed_number = none)
    (h3 : cfg.fixed_ordered_list_marker = none)
    (h4 : cfg.fixed_unordered_list_marker = none) :
    ∀ lm, cfg.list_marker s = .ok lm →
      (lm = .Unordered .Hyphen ∧ item_marker_text lm false = ['-', ' '])
        ∨ (lm = .Ordered 0 1 .Period ∧ item_marker_text lm false = ['1', '.', ' ']) := by
  intro lm hlm
  unfold Config.list_marker at hlm
  cases hfs : ListMarker.from_str s with
  | error e => rw [hfs] at hlm; exact absurd hlm (by simp)
  | ok lm0 =>
    by_cases h : trim s = []
    · rw [from_str_of_trim_empty h] at hfs; exact absurd hfs (by simp)
    · rcases from_str_of_trim_ne h with he | he <;> rw [he] at hlm <;>
        rw [h1, h2, h3, h4] at hlm <;> simp only [] at hlm
      · exact Or.inl ⟨(Except.ok.inj hlm).symm, by rw [← Except.ok.inj hlm]; rfl⟩
      · exact Or.inr ⟨(Except.ok.inj hlm).symm, by rw [← Except.ok.inj hlm]; rfl⟩

/-- Witness for the amended C5 at the concrete source text `"2."` under the
default configuration. -/
theorem list_marker_all_fixed_none_normalizes_witness :
    (({} : Config).fixed_zero_padding = none
        ∧ ({} : Config).fixed_number = none
        ∧ ({} : Config).fixed_ordered_list_marker = none
        ∧ ({} : Config).fixed_unordered_list_marker = none)
      ∧ ∀ lm, ({} : Config).list_marker ['2', '.'] = .ok lm →
        (lm = .Unordered .Hyphen ∧ item_marker_text lm false = ['-', ' '])
          ∨ (lm = .Ordered 0 1 .Period ∧ item_marker_text lm false = ['1', '.', ' ']) :=
  ⟨⟨rfl, rfl, rfl, rfl⟩,
    list_marker_all_fixed_none_normalizes {} ['2', '.'] rfl rfl rfl rfl⟩

/-- C8 counterexample: the destination `"a b>"` contains a space and is not
wrapped in angle brackets (it lacks the leading `<`), so the claim requires it
to be wrapped; `format_link_url` returns it unchanged, because the code
exempts any destination that merely *ends* with `>` from the space check. -/
theorem format_link_url_space_not_wrapped :
    containsChar ['a', ' ', 'b', '>'] ' ' = true
      ∧ (startsWithChar ['a', ' ', 'b', '>'] '<'
          && endsWithChar ['a', ' ', 'b', '>'] '>') = false
      ∧ balanced_parens ['a', ' ', 'b', '>'] = true
      ∧ format_link_url ['a', ' ', 'b', '>'] false = ['a', ' ', 'b', '>']
      ∧ format_link_url ['a', ' ', 'b', '>'] false
          ≠ '<' :: ['a', ' ', 'b', '>'] ++ ['>'] :=
  ⟨rfl, rfl, rfl, rfl, by decide⟩

/-- C8 (amended): `format_link_url` either returns the destination unchanged
or wraps it in one pair of angle brackets, and it wraps exactly when
`wrap_empty_urls` is set on an empty destination, or the destination neither
starts with `<` nor ends with `>` *and* contains a space, or its escape-aware
parentheses are unbalanced. -/
theorem format_link_url_characterization (url : Str) (wrap_empty_urls : Bool) :
    (format_link_url url wrap_empty_urls = url
        ∨ format_link_url url wrap_empty_urls = '<' :: url ++ ['>'])
      ∧ (format_link_url url wrap_empty_urls = '<' :: url ++ ['>']
          ↔ ((wrap_empty_urls && url.isEmpty)
              || ((!startsWithChar url '<' && !endsWithChar url '>'
                  && containsChar url ' ')
                || !balanced_parens url)) = true) := by
  have hlen : format_link_url url wrap_empty_urls = url →
      ¬ format_link_url url wrap_empty_urls = '<' :: url ++ ['>'] := by
    intro he h
    rw [he] at h
    have h2 := congrArg List.length h
    simp at h2
    omega
  by_cases h1 : (wrap_empty_urls && url.isEmpty) = true
  · rw [Bool.and_eq_true] at h1
    have hu : url = [] := List.isEmpty_iff.mp h1.2
    subst hu
    have hr : format_link_url [] wrap_empty_urls = '<' :: ([] : Str) ++ ['>'] := by
      unfold format_link_url
      rw [if_pos (by simp [h1.1])]
      rfl
    exact ⟨Or.inr hr, ⟨fun _ => by simp [h1.1], fun _ => hr⟩⟩
  · by_cases h2 : ((!startsWithChar url '<' && !endsWithChar url '>'
        && containsChar url ' ') || !balanced_parens url) = true
    · have hr : format_link_url url wrap_empty_urls = '<' :: url ++ ['>'] := by
        unfold format_link_url
        rw [if_neg h1, if_pos h2]
      exact ⟨Or.inr hr, ⟨fun _ => by simp [h2], fun _ => hr⟩⟩
    · have hr : format_link_url url wrap_empty_urls = url := by
        unfold format_link_url
        rw [if_neg h1, if_neg h2]
      refine ⟨Or.inl hr, ⟨fun h => absurd h (hlen hr), fun hcond => ?_⟩⟩
      simp only [Bool.not_eq_true] at h1 h2
      simp [h1, h2] at hcond

/-- `Paragraph::write_str` without a configured `max_width` appends the text
unchanged. -/
theorem paragraph_write_str_none (p : Paragraph) (h : p.max_width = none)
    (s : Str) : p.write_str s = { p with buffer := p.buffer ++ s } := by
  unfold Paragraph.write_str
  rw [h]
  simp

/-- Folding `write_str` without a configured `max_width` concatenates all
writes. -/
theorem paragraph_foldl_none (writes : List Str) (p : Paragraph)
    (h : p.max_width = none) :
    writes.foldl Paragraph.write_str p
      = { p with buffer := p.buffer ++ writes.flatten } := by
  induction writes generalizing p with
  | nil => simp
  | cons w ws ih =>
    rw [List.foldl_cons, paragraph_write_str_none p h w,
      ih { p with buffer := p.buffer ++ w } h]
    simp

/-- C10: the default `Paragraph` formatter constructed with `max_width = None`
is a passthrough identity: whatever sequence of `write_str` calls is made,
`into_buffer` returns exactly their concatenation, for every wrapping
function `fill` (so no hard-break rewriting, whitespace substitution, or
line wrapping takes place). -/
theorem paragraph_no_max_width_is_passthrough (bt : BufferType) (cap : Nat)
    (writes : List Str) (fill : Nat → Str → Str) :
    (writes.foldl Paragraph.write_str (Paragraph.new bt none cap)).into_buffer fill
      = writes.flatten := by
  rw [paragraph_foldl_none writes _ rfl]
  unfold Paragraph.into_buffer
  simp [Paragraph.new]

/-- One step of `exhaust_mismatching_context`, phrased through
`is_matching_end`. -/
theorem exhaust_cons (ctx : Option FormattingContext) (x : Event × SrcRange)
    (rest : List (Event × SrcRange)) :
    exhaust_mismatching_context ctx (x :: rest)
      = if is_matching_end ctx x then some ([], x, rest)
        else (exhaust_mismatching_context ctx rest).map (fun r => (x :: r.1, r.2)) := by
  obtain ⟨event, range⟩ := x
  cases event <;> simp [exhaust_mismatching_context, is_matching_end]

/-- `exhaust_mismatching_context` panics exactly when no event of the stream
ends the open context. -/
theorem exhaust_eq_none_iff (ctx : Option FormattingContext)
    (l : List (Event × SrcRange)) :
    exhaust_mismatching_context ctx l = none
      ↔ ∀ x ∈ l, is_matching_end ctx x = false := by
  induction l with
  | nil => simp [exhaust_mismatching_context]
  | cons x rest ih =>
    rw [exhaust_cons]
    by_cases h : is_matching_end ctx x = true
    · simp [h]
    · rw [Bool.not_eq_true] at h
      simp [h, Option.map_eq_none', ih]

/-- When `exhaust_mismatching_context` succeeds, it has split the stream at
the first matching `End`: everything before it is cached (and none of it
matches), and the matching `End` itself is returned. -/
theorem exhaust_eq_some (ctx : Option FormattingContext)
    (l buf rem : List (Event × SrcRange)) (found : Event × SrcRange)
    (h : exhaust_mismatching_context ctx l = some (buf, found, rem)) :
    l = buf ++ found :: rem ∧ is_matching_end ctx found = true
      ∧ ∀ x ∈ buf, is_matching_end ctx x = false := by
  induction l generalizing buf found rem with
  | nil => simp [exhaust_mismatching_context] at h
  | cons x rest ih =>
    rw [exhaust_cons] at h
    by_cases hm : is_matching_end ctx x = true
    · rw [if_pos hm] at h
      simp only [Option.some.injEq, Prod.mk.injEq] at h
      obtain ⟨hbuf, hfound, hrem⟩ := h
      subst hbuf hfound hrem
      exact ⟨rfl, hm, by simp⟩
    · rw [if_neg hm] at h
      rw [Option.map_eq_some'] at h
      obtain ⟨⟨buf', found', rem'⟩, ha, hfa⟩ := h
      simp only [Prod.mk.injEq] at hfa
      obtain ⟨hbuf, hfound, hrem⟩ := hfa
      subst hbuf hfound hrem
      obtain ⟨hl, hf, hb⟩ := ih _ _ _ ha
      refine ⟨by rw [hl]; rfl, hf, ?_⟩
      intro y hy
      rcases List.mem_cons.mp hy with hy | hy
      · subst hy
        exact Bool.not_eq_true _ ▸ Bool.eq_false_iff.mpr (fun hc => hm (hc ▸ rfl))
      · exact hb y hy

/-- Conversely, `exhaust_mismatching_context` finds the first matching `End`
of a stream split around one. -/
theorem exhaust_of_split (ctx : Option FormattingContext)
    (pre rem : List (Event × SrcRange)) (found : Event × SrcRange)
    (hfound : is_matching_end ctx found = true)
    (hpre : ∀ x ∈ pre, is_matching_end ctx x = false) :
    exhaust_mismatching_context ctx (pre ++ found :: rem) = some (pre, found, rem) := by
  induction pre with
  | nil => rw [List.nil_append, exhaust_cons, if_pos hfound]
  | cons x xs ih =>
    have hx : is_matching_end ctx x = false := hpre x (by simp)
    rw [List.cons_append, exhaust_cons, if_neg (by simp [hx]),
      ih (fun y hy => hpre y (by simp [hy]))]
    rfl

/-- C4: when the adapter pops the `Start` of a code-block / HTML-block /
paragraph while another such context is open, it buffers that `Start` and
every subsequent event in the FIFO queue until the first `End` of the open
kind, emits that `End` (clearing the context, with the buffered events queued
for replay in order); and it panics exactly when the stream holds no matching
`End` for the open context. -/
theorem sequential_block_adapter_behavior (s : SequentialBlockAdapter)
    (c : FormattingContext) (tag : Tag) (range : SrcRange)
    (c2 : FormattingContext)
    (queue inner : List (Event × SrcRange))
    (hctx : s.context = some c)
    (htag : context_of_tag tag = some c2)
    (hpop : s.popFront = some ((Event.Start tag, range), queue, inner)) :
    (s.next = .error .noMatchingEndTag
        ↔ ∀ x ∈ inner, is_matching_end (some c) x = false)
      ∧ ∀ buffered rem found, inner = buffered ++ found :: rem
          → is_matching_end (some c) found = true
          → (∀ x ∈ buffered, is_matching_end (some c) x = false)
          → s.next = .ok (some (found,
              ⟨rem, none, (queue ++ [(Event.Start tag, range)]) ++ buffered⟩)) := by
  unfold SequentialBlockAdapter.next
  rw [hpop]
  simp only [htag, hctx]
  constructor
  · constructor
    · intro h
      cases hex : exhaust_mismatching_context (some c) inner with
      | none => exact (exhaust_eq_none_iff _ _).mp hex
      | some r =>
        obtain ⟨b, f, r⟩ := r
        rw [hex] at h
        simp at h
    · intro h
      rw [(exhaust_eq_none_iff _ _).mpr h]
  · intro buffered rem found hsplit hfound hbuf
    rw [hsplit, exhaust_of_split _ _ _ _ hfound hbuf]

/-- Witness for C4: a paragraph is open, a code block starts early; the
adapter emits the paragraph's `End` and queues the code-block `Start` and the
stray `Text` for replay, and the panic-iff clause holds at this state. -/
theorem sequential_block_adapter_behavior_witness :
    ((SequentialBlockAdapter.mk
        [(Event.Start (Tag.CodeBlock .Indented), ⟨5, 6⟩),
          (Event.Text ['x'], ⟨6, 7⟩),
          (Event.End .Paragraph, ⟨0, 7⟩),
          (Event.Text ['y'], ⟨7, 8⟩)]
        (some .Paragraph) []).next
      = .ok (some ((Event.End .Paragraph, ⟨0, 7⟩),
          ⟨[(Event.Text ['y'], ⟨7, 8⟩)], none,
            [(Event.Start (Tag.CodeBlock .Indented), ⟨5, 6⟩),
              (Event.Text ['x'], ⟨6, 7⟩)]⟩))) :=
  (sequential_block_adapter_behavior
      ⟨[(Event.Start (Tag.CodeBlock .Indented), ⟨5, 6⟩),
          (Event.Text ['x'], ⟨6, 7⟩),
          (Event.End .Paragraph, ⟨0, 7⟩),
          (Event.Text ['y'], ⟨7, 8⟩)],
        some .Paragraph, []⟩
      .Paragraph (Tag.CodeBlock .Indented) ⟨5, 6⟩ .CodeBlock
      [] [(Event.Text ['x'], ⟨6, 7⟩), (Event.End .Paragraph, ⟨0, 7⟩),
        (Event.Text ['y'], ⟨7, 8⟩)]
      rfl rfl rfl).2
    [(Event.Text ['x'], ⟨6, 7⟩)] [(Event.Text ['y'], ⟨7, 8⟩)]
    (Event.End .Paragraph, ⟨0, 7⟩) rfl rfl (by decide)

/-- The selection loop splits the stack as `takeWhile`/`dropWhile` on
"starts no later than the upcoming event". -/
theorem selected_eq_takeWhile_dropWhile (refs : List ReferenceLinkDefinition)
    (r : Nat) :
    rewrite_reference_link_definitions_selected refs r
      = (refs.takeWhile (fun d => decide (d.span.start ≤ r)),
        refs.dropWhile (fun d => decide (d.span.start ≤ r))) := by
  induction refs with
  | nil => rfl
  | cons d rest ih =>
    unfold rewrite_reference_link_definitions_selected
    by_cases h : r < d.span.start
    · rw [if_pos h, List.takeWhile_cons_of_neg (by simpa using h),
        List.dropWhile_cons_of_neg (by simpa using h)]
    · rw [if_neg h, ih, List.takeWhile_cons_of_pos (by simpa using Nat.le_of_not_lt h),
        List.dropWhile_cons_of_pos (by simpa using Nat.le_of_not_lt h)]

/-- On an ascending stack, everything the selection loop leaves behind starts
strictly after the upcoming event. -/
theorem remaining_starts_after (r : Nat) (refs : List ReferenceLinkDefinition)
    (hs : List.Pairwise (fun a b => a.span.start < b.span.start) refs) :
    ∀ d ∈ refs.dropWhile (fun d => decide (d.span.start ≤ r)),
      r < d.span.start := by
  induction refs with
  | nil => simp
  | cons x xs ih =>
    rw [List.pairwise_cons] at hs
    by_cases hx : x.span.start ≤ r
    · rw [List.dropWhile_cons_of_pos (by simpa using hx)]
      exact ih hs.2
    · rw [List.dropWhile_cons_of_neg (by simpa using hx)]
      intro d hd
      rcases List.mem_cons.mp hd with h | h
      · subst h; omega
      · exact Nat.lt_trans (Nat.lt_of_not_le hx) (hs.1 d h)

/-- C3: on a pending stack that is strictly ascending in source position (the
presorter builds it strictly descending in `Vec` order), the flush performed
before a `Start` event emits every definition whose source position precedes
the event, in strictly ascending source-position order; flushed and remaining
definitions partition the stack (so each definition is emitted exactly once,
inline or at end of document); and the leftover flush at end of document also
emits in ascending (original forward) order. -/
theorem reference_link_definitions_flush (refs : List ReferenceLinkDefinition)
    (range_start : Nat)
    (hsorted : List.Pairwise (fun a b => a.span.start < b.span.start) refs) :
    (∀ d ∈ refs, d.span.start < range_start
        → d ∈ (rewrite_reference_link_definitions_selected refs range_start).1)
      ∧ List.Pairwise (fun a b => a.span.start < b.span.start)
          (rewrite_reference_link_definitions_selected refs range_start).1
      ∧ (rewrite_reference_link_definitions_selected refs range_start).1
            ++ (rewrite_reference_link_definitions_selected refs range_start).2
          = refs
      ∧ List.Pairwise (fun a b => a.span.start < b.span.start)
          (rewrite_final_reference_links_order
            (rewrite_reference_link_definitions_selected refs range_start).2) := by
  rw [selected_eq_takeWhile_dropWhile]
  refine ⟨?_, ?_, ?_, ?_⟩
  · intro d hd hdr
    have hsplit := List.takeWhile_append_dropWhile
      (p := fun d => decide (d.span.start ≤ range_start)) (l := refs)
    rw [← hsplit] at hd
    rcases List.mem_append.mp hd with h | h
    · exact h
    · exact absurd (remaining_starts_after range_start refs hsorted d h) (by omega)
  · exact hsorted.sublist (List.takeWhile_prefix _).sublist
  · exact List.takeWhile_append_dropWhile (p := fun d => decide (d.span.start ≤ range_start)) (l := refs)
  · exact hsorted.sublist (List.dropWhile_suffix _).sublist

/-- Witness for C3 at a concrete three-element stack (spans starting at 10,
20, 30; upcoming event at 25). -/
theorem reference_link_definitions_flush_witness :
    (List.Pairwise (fun a b => a.span.start < b.span.start)
        [ReferenceLinkDefinition.mk ['a'] ['u'] none ⟨10, 12⟩,
          ReferenceLinkDefinition.mk ['b'] ['v'] none ⟨20, 22⟩,
          ReferenceLinkDefinition.mk ['c'] ['w'] none ⟨30, 32⟩])
      ∧ ((∀ d ∈ [ReferenceLinkDefinition.mk ['a'] ['u'] none ⟨10, 12⟩,
            ReferenceLinkDefinition.mk ['b'] ['v'] none ⟨20, 22⟩,
            ReferenceLinkDefinition.mk ['c'] ['w'] none ⟨30, 32⟩],
          d.span.start < 25
          → d ∈ (rewrite_reference_link_definitions_selected
              [ReferenceLinkDefinition.mk ['a'] ['u'] none ⟨10, 12⟩,
                ReferenceLinkDefinition.mk ['b'] ['v'] none ⟨20, 22⟩,
                ReferenceLinkDefinition.mk ['c'] ['w'] none ⟨30, 32⟩] 25).1)
        ∧ List.Pairwise (fun a b => a.span.start < b.span.start)
            (rewrite_reference_link_definitions_selected
              [ReferenceLinkDefinition.mk ['a'] ['u'] none ⟨10, 12⟩,
                ReferenceLinkDefinition.mk ['b'] ['v'] none ⟨20, 22⟩,
                ReferenceLinkDefinition.mk ['c'] ['w'] none ⟨30, 32⟩] 25).1
        ∧ (rewrite_reference_link_definitions_selected
              [ReferenceLinkDefinition.mk ['a'] ['u'] none ⟨10, 12⟩,
                ReferenceLinkDefinition.mk ['b'] ['v'] none ⟨20, 22⟩,
                ReferenceLinkDefinition.mk ['c'] ['w'] none ⟨30, 32⟩] 25).1
              ++ (rewrite_reference_link_definitions_selected
                [ReferenceLinkDefinition.mk ['a'] ['u'] none ⟨10, 12⟩,
                  ReferenceLinkDefinition.mk ['b'] ['v'] none ⟨20, 22⟩,
                  ReferenceLinkDefinition.mk ['c'] ['w'] none ⟨30, 32⟩] 25).2
            = [ReferenceLinkDefinition.mk ['a'] ['u'] none ⟨10, 12⟩,
                ReferenceLinkDefinition.mk ['b'] ['v'] none ⟨20, 22⟩,
                ReferenceLinkDefinition.mk ['c'] ['w'] none ⟨30, 32⟩]
        ∧ List.Pairwise (fun a b => a.span.start < b.span.start)
            (rewrite_final_reference_links_order
              (rewrite_reference_link_definitions_selected
                [ReferenceLinkDefinition.mk ['a'] ['u'] none ⟨10, 12⟩,
                  ReferenceLinkDefinition.mk ['b'] ['v'] none ⟨20, 22⟩,
                  ReferenceLinkDefinition.mk ['c'] ['w'] none ⟨30, 32⟩] 25).2)) :=
  ⟨by decide,
    reference_link_definitions_flush
      [ReferenceLinkDefinition.mk ['a'] ['u'] none ⟨10, 12⟩,
        ReferenceLinkDefinition.mk ['b'] ['v'] none ⟨20, 22⟩,
        ReferenceLinkDefinition.mk ['c'] ['w'] none ⟨30, 32⟩] 25 (by decide)⟩

/-- Fidelity of the instrumented selection: for every engine state and range,
the stack that the engine-level flush loop (`refDefsFlushLoop`) writes back is
exactly the remaining part computed by
`rewrite_reference_link_definitions_selected`, independent of the buffer
writes threaded through the state. -/
theorem refDefsFlushLoop_reference_links (refs : List ReferenceLinkDefinition)
    (range : SrcRange) (s : FormatState) :
    (refDefsFlushLoop refs range s).reference_links
      = (rewrite_reference_link_definitions_selected refs range.start).2 := by
  induction refs generalizing s with
  | nil => rfl
  | cons d rest ih =>
    unfold refDefsFlushLoop rewrite_reference_link_definitions_selected
    by_cases h : range.start < d.span.start
    · rw [if_pos h, if_pos h]
    · rw [if_neg h, if_neg h]
      exact ih _

/-! ### Input preservation: no engine step modifies the `input` field -/

theorem write_str_input (s : FormatState) (t : Str) :
    (s.write_str t).input = s.input := by
  unfold FormatState.write_str
  repeat' split
  all_goals rfl

theorem writeIndentsGo_input (pos : Nat) (tt : Bool) (l : List Str)
    (i : Nat) (s : FormatState) :
    (writeIndentsGo pos tt i l s).input = s.input := by
  induction l generalizing i s with
  | nil => rfl
  | cons ind rest ih =>
    unfold writeIndentsGo
    rw [ih]
    split <;> rw [write_str_input]

theorem write_indentation_input (s : FormatState) (tt : Bool) :
    (s.write_indentation tt).input = s.input := by
  unfold FormatState.write_indentation
  try simp only []
  repeat' split
  all_goals first
    | rfl
    | rw [writeIndentsGo_input]

theorem writeNewlinesGo_input (nested at_ : Bool) (n : Nat) (s : FormatState) :
    (writeNewlinesGo nested at_ n s).input = s.input := by
  induction n generalizing s with
  | zero => rfl
  | succ n ih =>
    unfold writeNewlinesGo
    rw [ih]
    split
    · rw [write_indentation_input, write_str_input]
    · rw [write_str_input]

theorem write_newlines_inner_input (s : FormatState) (m : Nat) (at_ : Bool) :
    (s.write_newlines_inner m at_).input = s.input := by
  unfold FormatState.write_newlines_inner
  try simp only []
  repeat' split
  all_goals first
    | rfl
    | rw [write_indentation_input, writeNewlinesGo_input]
    | rw [writeNewlinesGo_input]

theorem write_newlines_input (s : FormatState) (m : Nat) :
    (s.write_newlines m).input = s.input :=
  write_newlines_inner_input s m false

theorem write_reference_link_definition_inner_input (s : FormatState)
    (label dest : Str) (title : Option (Str × Char)) :
    (s.write_reference_link_definition_inner label dest title).input = s.input := by
  unfold FormatState.write_reference_link_definition_inner
  split <;> rw [write_str_input, write_newlines_input]

theorem refDefsFlushLoop_input (refs : List ReferenceLinkDefinition)
    (range : SrcRange) (s : FormatState) :
    (refDefsFlushLoop refs range s).input = s.input := by
  induction refs generalizing s with
  | nil => rfl
  | cons d rest ih =>
    unfold refDefsFlushLoop
    split
    · rfl
    · rw [ih]
      simp only [write_reference_link_definition_inner_input, write_newlines_input]

theorem rewrite_reference_link_definitions_input (s : FormatState)
    (range : SrcRange) :
    (s.rewrite_reference_link_definitions range).input = s.input := by
  unfold FormatState.rewrite_reference_link_definitions
  split
  · rfl
  · rw [refDefsFlushLoop_input]

theorem write_metadata_block_separator_input (s : FormatState)
    (kind : MetadataBlockKind) (range : SrcRange) :
    (s.write_metadata_block_separator kind range).input = s.input := by
  unfold FormatState.write_metadata_block_separator
  rw [write_str_input, write_newlines_input]

theorem check_needs_indent_input (s : FormatState) (e : Event) :
    (s.check_needs_indent e).input = s.input := rfl

theorem start_tag_input (s : FormatState) (tag : Tag) (range : SrcRange)
    (s' : FormatState) (h : s.start_tag tag range = .ok s') :
    s'.input = s.input := by
  unfold FormatState.start_tag at h
  cases tag
  case Heading level id classes =>
    simp only [] at h
    repeat' split at h
    all_goals rw [← Except.ok.inj h]
    all_goals simp [*, write_str_input, write_newlines_input]
  case MetadataBlock kind =>
    rw [← Except.ok.inj h, write_metadata_block_separator_input]
  all_goals exact Except.noConfusion h

theorem end_tag_input (s : FormatState) (tag : TagEnd) (range : SrcRange)
    (s' : FormatState) (h : s.end_tag tag range = .ok s') :
    s'.input = s.input := by
  unfold FormatState.end_tag at h
  cases tag
  case Heading level =>
    simp only [] at h
    repeat' split at h
    all_goals first
      | exact Except.noConfusion h
      | (rw [← Except.ok.inj h]
         try simp [*, write_str_input, write_newlines_input])
  case FootnoteDefinition =>
    rw [← Except.ok.inj h]
  case MetadataBlock kind =>
    rw [← Except.ok.inj h, write_metadata_block_separator_input]
  all_goals exact Except.noConfusion h

theorem format_one_event_input (s : FormatState) (event : Event)
    (range : SrcRange) (s' : FormatState)
    (h : s.format_one_event event range = .ok s') :
    s'.input = s.input := by
  unfold FormatState.format_one_event at h
  cases event
  case Start tag =>
    simp only [] at h
    split at h
    · exact Except.noConfusion h
    · next s1 heq =>
      rw [← Except.ok.inj h]
      have h2 := start_tag_input _ _ _ _ heq
      rw [rewrite_reference_link_definitions_input] at h2
      simpa using h2
  case End tag =>
    simp only [] at h
    split at h
    · exact Except.noConfusion h
    · next s1 heq =>
      rw [← Except.ok.inj h]
      have h2 := end_tag_input _ _ _ _ heq
      simpa [FormatState.check_needs_indent] using h2
  all_goals (
    simp only [] at h
    repeat' split at h
    all_goals first
      | exact Except.noConfusion h
      | (rw [← Except.ok.inj h]
         try simp [*, write_str_input, write_newlines_input,
           write_indentation_input, FormatState.check_needs_indent]))

theorem formatGo_input (evs : List (Event × SrcRange)) (s s2 : FormatState)
    (h : formatGo evs s = .ok s2) : s2.input = s.input := by
  induction evs generalizing s with
  | nil =>
    unfold formatGo at h
    rw [← Except.ok.inj h]
  | cons er rest ih =>
    obtain ⟨event, range⟩ := er
    unfold formatGo at h
    split at h
    · exact Except.noConfusion h
    · next s1 heq =>
      have h2 := ih _ h
      have h3 := format_one_event_input _ _ _ _ heq
      rw [h2, h3]

/-- A string extended by a newline ends with a newline. -/
theorem endsWithChar_append_nl (l : Str) :
    endsWithChar (l ++ ['\n']) '\n' = true := by
  unfold endsWithChar
  rw [List.getLast?_concat]
  rfl

/-- C7: running the engine with the default configuration on the event stream
of `"#  Hello World! "` produces exactly `"# Hello World!"`: a single `#`
marker, one space, the text with leading/internal/trailing spacing around
marker and text collapsed, and no trailing whitespace. -/
theorem heading_normalization_hello_world :
    (FormatState.new helloInput {} helloEvents []).format
      = .ok ("# Hello World!".toList) := rfl

/-- C6 counterexample: the input `"---\na: b\n---"` does not end with a
newline, yet the engine's output for its event stream is
`"---\na: b\n---\n"`, which does (`write_metadata_block_separator` writes the
closing delimiter with `writeln!`).  So output-newline presence is not
equivalent to input-newline presence. -/
theorem trailing_newline_not_mirrored :
    endsWithChar metaInput '\n' = false
      ∧ (FormatState.new metaInput {} metaEvents []).format
          = .ok ("---\na: b\n---\n".toList)
      ∧ endsWithChar ("---\na: b\n---\n".toList) '\n' = true :=
  ⟨rfl, rfl, rfl⟩

/-- C6 (amended): if the input ends with a newline then the formatted output
ends with a newline — `format`'s tail appends one.  The converse direction of
the claim is false: the engine can emit a trailing newline even when the
input lacks one (see the metadata-block counterexample). -/
theorem format_trailing_newline_forward (s : FormatState) (out : Str)
    (hok : s.format = .ok out) (hin : endsWithChar s.input '\n' = true) :
    endsWithChar out '\n' = true := by
  unfold FormatState.format at hok
  split at hok
  · exact Except.noConfusion hok
  · next s2 heq =>
    rw [← Except.ok.inj hok]
    have hpres := formatGo_input _ _ _ heq
    rw [hpres, hin]
    simp only [if_true]
    exact endsWithChar_append_nl _

/-- Witness for the amended C6 at the concrete input `"x\n"` with an empty
event stream: the output is `"\n"`, which ends with a newline. -/
theorem format_trailing_newline_forward_witness :
    endsWithChar (FormatState.new "x\n".toList {} [] []).input '\n' = true
      ∧ endsWithChar ['\n'] '\n' = true :=
  ⟨rfl, format_trailing_newline_forward (FormatState.new "x\n".toList {} [] [])
    ['\n'] rfl rfl⟩
